import Mathlib

/-!
# Verification of the streaming-statistics tool (src/main.rs)

Shallow embedding of the `stats-rs` command-line program. The repository's
own code (`src/main.rs`) is embedded directly: the `Stats` aggregate, its
`default`, `update`, `stub` and `Display` rendering, and the `compute_stats`
ingestion loop. Machine floats are modelled as exact values (`F`, an
extended rational with explicit `nan` / `inf` / `-inf`), so min/max and the
sentinel initial values are represented without rounding; the arithmetic of
the estimators is over `ℚ` (no rounding error is modelled).

The numeric estimators (`Mean`, `Variance`, `Quantile`) come from the
external `watermill` crate, whose sources are not part of this repository;
those definitions are modelled from the specification (Welford's online
mean/variance, and the P² five-marker quantile estimator), as marked in
their doc comments.
-/

namespace StatsRs

/-- A machine floating-point value, modelled exactly: `nan`, the two
infinities used as sentinels (`Float::infinity()` / `Float::neg_infinity()`
in `Stats::default`), or a finite value represented as a rational. -/
inductive F where
  | nan : F
  | inf : F
  | ninf : F
  | fin : ℚ → F
deriving DecidableEq

/-- Whether the value is NaN. -/
def F.isNan : F → Bool
  | .nan => true
  | _ => false

/-- Rust `f32::min` / `f64::min` (used by `Stats::update`, line 91):
"If one of the arguments is NaN, then the other argument is returned."
On non-NaN values it is the order minimum, with `-inf` least, `inf` greatest. -/
def F.min : F → F → F
  | .nan, b => b
  | a, .nan => a
  | .ninf, _ => .ninf
  | _, .ninf => .ninf
  | .inf, b => b
  | a, .inf => a
  | .fin p, .fin q => .fin (Min.min p q)

/-- Rust `f32::max` / `f64::max` (used by `Stats::update`, line 92):
"If one of the arguments is NaN, then the other argument is returned."
On non-NaN values it is the order maximum. -/
def F.max : F → F → F
  | .nan, b => b
  | a, .nan => a
  | .inf, _ => .inf
  | _, .inf => .inf
  | .ninf, b => b
  | a, .ninf => a
  | .fin p, .fin q => .fin (Max.max p q)

/-- Rust's `Display` for floats as far as the claims need it: positive
infinity prints as `"inf"`, negative infinity as `"-inf"`, NaN as `"NaN"`.
(The decimal rendering of finite values is not modelled further; no claim
depends on it.) -/
def F.fmt : F → String
  | .nan => "NaN"
  | .inf => "inf"
  | .ninf => "-inf"
  | .fin q => toString q

/-- Modelled from the spec: `watermill::mean::Mean` is not in this
repository's sources. Single-pass running mean: `update(x)` advances the
count and sets `mean ← mean + (x − mean)/count` (spec §4.1). -/
structure Mean where
  count : ℕ
  mean : ℚ

/-- `Mean::new()`: zero observations, neutral mean. -/
def Mean.new : Mean := ⟨0, 0⟩

/-- One `update(x)` step of the running mean (spec §4.1). -/
def Mean.update (s : Mean) (x : ℚ) : Mean :=
  let n := s.count + 1
  ⟨n, s.mean + (x - s.mean) / (n : ℚ)⟩

/-- Modelled from the spec: `mean()` returns the current mean, or an
absent value when `count = 0` (spec §4.1). -/
def Mean.get (s : Mean) : Option ℚ :=
  if s.count = 0 then none else some s.mean

/-- Modelled from the spec: `watermill::variance::Variance` is not in this
repository's sources. Welford's online algorithm (spec §4.1): running
count, mean and sum of squared deviations. -/
structure Variance where
  count : ℕ
  mean : ℚ
  sum_sq_dev : ℚ

/-- `Variance::default()`: zero observations. -/
def Variance.default : Variance := ⟨0, 0, 0⟩

/-- One Welford `update(x)` step (spec §4.1):
`mean ← mean + (x − mean)/count`,
`sum_sq_dev ← sum_sq_dev + (x − mean_before)·(x − mean_after)`. -/
def Variance.update (s : Variance) (x : ℚ) : Variance :=
  let n := s.count + 1
  let m := s.mean + (x - s.mean) / (n : ℚ)
  ⟨n, m, s.sum_sq_dev + (x - s.mean) * (x - m)⟩

/-- Modelled from the spec: `variance()` returns `sum_sq_dev / count`
(population variance), or an absent value when `count = 0` (spec §4.1). -/
def Variance.get (s : Variance) : Option ℚ :=
  if s.count = 0 then none else some (s.sum_sq_dev / (s.count : ℚ))

/-- Steady state of the P² quantile estimator: the target quantile `p`,
five marker positions `n1 ≤ … ≤ n5` (estimated ranks), five marker heights
`h1 ≤ … ≤ h5` (estimated values), and the observation count. -/
structure P2 where
  p : ℚ
  n1 : ℚ
  n2 : ℚ
  n3 : ℚ
  n4 : ℚ
  n5 : ℚ
  h1 : ℚ
  h2 : ℚ
  h3 : ℚ
  h4 : ℚ
  h5 : ℚ
  count : ℕ
deriving DecidableEq

/-- P² parabolic height adjustment for an interior marker with neighbours
`(nl, hl)` and `(nr, hr)`, own state `(n, h)`, direction `s = ±1`
(spec §4.2 step 4, the piecewise-parabolic formula of the P² algorithm). -/
def parabolic (nl n nr hl h hr s : ℚ) : ℚ :=
  h + s / (nr - nl) *
    ((n - nl + s) * (hr - h) / (nr - n) + (nr - n - s) * (h - hl) / (n - nl))

/-- P² linear fallback adjustment towards the neighbour `(ns, hs)` in
direction `s = ±1` (spec §4.2 step 4). -/
def linearAdj (n h ns hs s : ℚ) : ℚ :=
  h + s * (hs - h) / (ns - n)

/-- One interior-marker adjustment of the P² algorithm (spec §4.2 step 4):
if the actual position `n` has drifted from the desired position `d` by ≥ 1
and the neighbouring position leaves room, move the marker by ±1 and update
its height parabolically, falling back to the linear adjustment whenever the
parabolic result would violate monotonicity with a neighbour. Returns the
new `(position, height)`. -/
def adjust (nl n nr hl h hr d : ℚ) : ℚ × ℚ :=
  if 1 ≤ d - n ∧ 1 < nr - n then
    let hp := parabolic nl n nr hl h hr 1
    (n + 1, if hl < hp ∧ hp < hr then hp else linearAdj n h nr hr 1)
  else if d - n ≤ -1 ∧ nl - n < -1 then
    let hp := parabolic nl n nr hl h hr (-1)
    (n - 1, if hl < hp ∧ hp < hr then hp else linearAdj n h nl hl (-1))
  else (n, h)

/-- Steps 1–2 of a steady-state P² update (spec §4.2): locate the bracket
`k` with `h_k ≤ x < h_{k+1}` (extending bracket 1 or 4 when `x` falls below
the lowest or at/above the highest marker, absorbing `x` into that extreme
marker's height), then increment the position of every marker above the
bracket and the observation count. -/
def P2.stage12 (s : P2) (x : ℚ) : P2 :=
  if x < s.h1 then
    { s with h1 := x, n2 := s.n2 + 1, n3 := s.n3 + 1, n4 := s.n4 + 1,
             n5 := s.n5 + 1, count := s.count + 1 }
  else if x < s.h2 then
    { s with n2 := s.n2 + 1, n3 := s.n3 + 1, n4 := s.n4 + 1,
             n5 := s.n5 + 1, count := s.count + 1 }
  else if x < s.h3 then
    { s with n3 := s.n3 + 1, n4 := s.n4 + 1, n5 := s.n5 + 1,
             count := s.count + 1 }
  else if x < s.h4 then
    { s with n4 := s.n4 + 1, n5 := s.n5 + 1, count := s.count + 1 }
  else if x < s.h5 then
    { s with n5 := s.n5 + 1, count := s.count + 1 }
  else
    { s with h5 := x, n5 := s.n5 + 1, count := s.count + 1 }

/-- The step-4 adjustment of marker 2 (spec §4.2): its desired position for
`n` observations is `1 + (n − 1)·p/2`; the marker is adjusted against its
neighbours 1 and 3 in the current state. -/
def P2.adj2 (t : P2) : P2 :=
  { t with
    n2 := (adjust t.n1 t.n2 t.n3 t.h1 t.h2 t.h3
      (1 + ((t.count : ℚ) - 1) * t.p / 2)).1
    h2 := (adjust t.n1 t.n2 t.n3 t.h1 t.h2 t.h3
      (1 + ((t.count : ℚ) - 1) * t.p / 2)).2 }

/-- The step-4 adjustment of marker 3 (spec §4.2): desired position
`1 + (n − 1)·p`, adjusted against its neighbours 2 and 4 in the current
state (marker 2 already adjusted). -/
def P2.adj3 (t : P2) : P2 :=
  { t with
    n3 := (adjust t.n2 t.n3 t.n4 t.h2 t.h3 t.h4
      (1 + ((t.count : ℚ) - 1) * t.p)).1
    h3 := (adjust t.n2 t.n3 t.n4 t.h2 t.h3 t.h4
      (1 + ((t.count : ℚ) - 1) * t.p)).2 }

/-- The step-4 adjustment of marker 4 (spec §4.2): desired position
`1 + (n − 1)·(1 + p)/2`, adjusted against its neighbours 3 and 5 in the
current state (markers 2 and 3 already adjusted). -/
def P2.adj4 (t : P2) : P2 :=
  { t with
    n4 := (adjust t.n3 t.n4 t.n5 t.h3 t.h4 t.h5
      (1 + ((t.count : ℚ) - 1) * (1 + t.p) / 2)).1
    h4 := (adjust t.n3 t.n4 t.n5 t.h3 t.h4 t.h5
      (1 + ((t.count : ℚ) - 1) * (1 + t.p) / 2)).2 }

/-- Steps 3–4 of a steady-state P² update (spec §4.2): recompute the desired
positions of the interior markers from `p` and the current count, then
adjust markers 2, 3, 4 in order. -/
def P2.stage34 (t : P2) : P2 :=
  t.adj2.adj3.adj4

/-- A full steady-state P² update for one observation (spec §4.2). -/
def P2.step (s : P2) (x : ℚ) : P2 :=
  (s.stage12 x).stage34

/-- Bootstrap completion (spec §4.2): the five buffered observations,
sorted, become the initial marker heights; the initial positions are the
ranks 1..5; five observations seen. The non-5-element branch is unreachable
(`P2.init` is only applied to a sorted 5-element buffer). -/
def P2.init (p : ℚ) : List ℚ → P2
  | [a, b, c, d, e] => ⟨p, 1, 2, 3, 4, 5, a, b, c, d, e, 5⟩
  | _ => ⟨p, 1, 2, 3, 4, 5, 0, 0, 0, 0, 0, 5⟩

/-- The marker height of rank `i` (1-based); out-of-range ranks clamp to the
extreme markers. -/
def P2.nthHeight (s : P2) : ℕ → ℚ
  | 0 => s.h1
  | 1 => s.h1
  | 2 => s.h2
  | 3 => s.h3
  | 4 => s.h4
  | _ => s.h5

/-- The 1-based rank of the exact sorted value reported for quantile `p`
right after the five-observation bootstrap: the (rounded) initial desired
position of the middle marker, `1 + 4p` (spec §4.2 "initial 'desired
positions' computed from p"; for p = 0.25 / 0.5 / 0.75 this is exactly
2 / 3 / 4, matching the spec §8 bootstrap scenario). -/
def bootRank (p : ℚ) : ℕ :=
  Min.min 5 (Max.max 1 (1 + 4 * p + 1 / 2).floor.toNat)

/-- Modelled from the spec: `watermill::quantile::Quantile` is not in this
repository's sources. A P² estimator for target quantile `p`: buffering its
first five observations (`boot`), or in steady state (`run`) (spec §4.2). -/
inductive Quantile where
  | boot (p : ℚ) (buf : List ℚ)
  | run (s : P2)
deriving DecidableEq

/-- `Quantile::new(p)`: empty bootstrap buffer. -/
def Quantile.new (p : ℚ) : Quantile := .boot p []

/-- `update(x)` (spec §4.2): while fewer than five observations have been
seen, buffer `x`; on the fifth, sort the buffer and enter steady state; from
the sixth observation on, perform a true P² update. -/
def Quantile.update : Quantile → ℚ → Quantile
  | .boot p buf, x =>
    let buf' := buf ++ [x]
    if buf'.length = 5 then
      .run (P2.init p (List.insertionSort (fun a b => a ≤ b) buf'))
    else
      .boot p buf'
  | .run s, x => .run (s.step x)

/-- Modelled from the spec: `get()` returns an absent sentinel while still
bootstrapping (< 5 observations buffered); at a just-completed 5th
observation it returns the exact sorted value at the middle marker's desired
rank `1 + 4p` ("callers must treat a just-completed 5th observation
specially (exact sorted value, not yet a P² estimate)", spec §4.2, and the
§8 scenario `q1 = 2, median = 3, q3 = 4` on input 1..5); afterwards it
returns marker 3's height. -/
def Quantile.get : Quantile → Option ℚ
  | .boot _ _ => none
  | .run s => some (if s.count = 5 then s.nthHeight (bootRank s.p) else s.h3)

/-- The statistics aggregate (`struct Stats`, main.rs lines 51–64): the mean,
three quantile estimators, variance, observation count, running min/max and
the `initialized` flag. The estimators' arithmetic is over `ℚ`; `min` and
`max` are machine-float values because their initial values are the
`+inf` / `-inf` sentinels. -/
structure Stats where
  mean : Mean
  median : Quantile
  q1 : Quantile
  q3 : Quantile
  variance : Variance
  count : ℕ
  min : F
  max : F
  initialized : Bool

/-- `Stats::default()` (main.rs lines 70–82): fresh estimators with target
quantiles 0.5 / 0.25 / 0.75, zero count, `min = +inf`, `max = -inf`,
uninitialized. -/
def Stats.default : Stats :=
  { mean := Mean.new
    median := Quantile.new (1 / 2)
    q1 := Quantile.new (1 / 4)
    q3 := Quantile.new (3 / 4)
    variance := Variance.default
    count := 0
    min := F.inf
    max := F.ninf
    initialized := false }

/-- `Stats::update(val)` (main.rs lines 84–94): forward `val` to every
estimator, increment the count, fold `val` into min/max, and set the
`initialized` flag. -/
def Stats.update (s : Stats) (val : ℚ) : Stats :=
  { mean := s.mean.update val
    median := s.median.update val
    q1 := s.q1.update val
    q3 := s.q3.update val
    variance := s.variance.update val
    count := s.count + 1
    min := s.min.min (F.fin val)
    max := s.max.max (F.fin val)
    initialized := true }

/-- Rendering of an estimator's possibly-absent value in the initialized
human-readable block (absent values render as the "NA" marker). -/
def fmtOpt : Option ℚ → String
  | none => "NA"
  | some q => toString q

/-- `Stats::stub` (main.rs lines 109–122): the human-readable block used in
the uninitialized state. Mean, variance, median, q1, q3 are the literal
`"NA"`; count, min and max are formatted from their current (sentinel)
values. -/
def Stats.stub (s : Stats) : String :=
  "Mean:\tNA\n" ++ "Variance:\tNA\n" ++ "Median:\tNA\n" ++ "q1:\tNA\n" ++
    "q3:\tNA\n" ++ "Count:\t" ++ toString s.count ++ "\n" ++
    "Min:\t" ++ s.min.fmt ++ "\n" ++ "Max:\t" ++ s.max.fmt

/-- `Display for Stats` (main.rs lines 129–146), the full text written by
`writeln!` (which appends a final newline): the eight labelled lines from
the current estimates when initialized, the `stub` otherwise. -/
def Stats.display (s : Stats) : String :=
  (if s.initialized then
    "Mean:\t" ++ fmtOpt s.mean.get ++ "\n" ++
      "Variance:\t" ++ fmtOpt s.variance.get ++ "\n" ++
      "Median:\t" ++ fmtOpt s.median.get ++ "\n" ++
      "q1:\t" ++ fmtOpt s.q1.get ++ "\n" ++
      "q3:\t" ++ fmtOpt s.q3.get ++ "\n" ++
      "Count:\t" ++ toString s.count ++ "\n" ++
      "Min:\t" ++ s.min.fmt ++ "\n" ++ "Max:\t" ++ s.max.fmt
  else s.stub) ++ "\n"

/-- The error message of the `bail!` in `compute_stats` (main.rs line 173):
it carries the 0-based line index and the raw offending text. -/
def errMsg (lineno : ℕ) (line : String) : String :=
  "Could not parse number on line " ++ toString lineno ++ ": '" ++ line ++ "'"

/-- The parsing loop of `compute_stats` (main.rs lines 167–184): lines are
consumed in order with their 0-based index (`enumerate` starts at `i`); the
first unparseable line aborts the whole run with the `bail!` error message;
otherwise every parsed value is folded into the aggregate and the final
aggregate is produced. -/
def parseLoop (parse : String → Option ℚ) (s : Stats) (i : ℕ) :
    List String → Except String Stats
  | [] => .ok s
  | line :: rest =>
    match parse line with
    | some v => parseLoop parse (s.update v) (i + 1) rest
    | none => .error (errMsg i line)

/-- `compute_stats` (main.rs lines 149–199), with stdin modelled as the list
of input lines, the numeric parser `line.parse::<T>()` as a parameter, and
the primary output channel as the `Except` result: with `skip_header` the
first line is consumed unprocessed (`lines.next()`), then the remaining
lines are enumerated from 0 and folded into a fresh `Stats::default()`.
`Except.ok` is the final aggregate printed on stdout (exit 0); `.error` is
the `bail!` propagated out of `main` (non-zero exit, no final result). The
live stderr view only writes to the diagnostic channel and does not affect
the aggregate or the result. -/
def compute_stats (parse : String → Option ℚ) (skip_header : Bool)
    (input : List String) : Except String Stats :=
  parseLoop parse Stats.default 0 (if skip_header then input.drop 1 else input)

/-- Folding a list of observations into a fresh aggregate: the state of the
program after `update` has been called once per element, in order. -/
def runStats (l : List ℚ) : Stats :=
  l.foldl Stats.update Stats.default

/-- The count/min/max/`initialized` fragment of `Stats` over machine-float
values, so that NaN observations can be expressed. `Stats::update` writes
these four fields (main.rs lines 90–93) without reading any estimator state,
so this fragment evolves exactly as in the full program; the estimator
fields are omitted because the NaN claim concerns only these four. -/
structure Extrema where
  count : ℕ
  min : F
  max : F
  initialized : Bool
deriving DecidableEq

/-- The count/min/max/`initialized` part of `Stats::default()`. -/
def Extrema.default : Extrema := ⟨0, F.inf, F.ninf, false⟩

/-- The count/min/max/`initialized` part of `Stats::update` (main.rs lines
90–93), over a possibly-NaN observation. -/
def Extrema.update (s : Extrema) (val : F) : Extrema :=
  ⟨s.count + 1, s.min.min val, s.max.max val, true⟩

/-- Folding a list of machine-float observations into the fragment. -/
def runExtrema (l : List F) : Extrema :=
  l.foldl Extrema.update Extrema.default

/-- Whether `pat` occurs as a contiguous run inside the character list. -/
def hasSub (pat : List Char) : List Char → Bool
  | [] => pat.isEmpty
  | c :: rest => pat.isPrefixOf (c :: rest) || hasSub pat rest

/-- Whether a rendered text mentions an infinity: the float rendering of the
`+inf` / `-inf` sentinels occurs in it as a substring. -/
def leaksInf (out : String) : Bool :=
  hasSub "inf".toList out.toList

/-! ### Componentwise behaviour of `Stats.update` and its folds -/

lemma Stats.update_count (s : Stats) (x : ℚ) : (s.update x).count = s.count + 1 := rfl

lemma Stats.update_min (s : Stats) (x : ℚ) : (s.update x).min = s.min.min (F.fin x) := rfl

lemma Stats.update_max (s : Stats) (x : ℚ) : (s.update x).max = s.max.max (F.fin x) := rfl

lemma Stats.update_mean (s : Stats) (x : ℚ) : (s.update x).mean = s.mean.update x := rfl

lemma Stats.update_variance (s : Stats) (x : ℚ) :
    (s.update x).variance = s.variance.update x := rfl

lemma foldl_update_count (l : List ℚ) :
    ∀ s : Stats, (l.foldl Stats.update s).count = s.count + l.length := by
  induction l with
  | nil => intro s; simp
  | cons x xs ih =>
    intro s
    rw [List.foldl_cons, ih, Stats.update_count, List.length_cons]
    omega

lemma foldl_update_min (l : List ℚ) :
    ∀ s : Stats, (l.foldl Stats.update s).min =
      l.foldl (fun m x => m.min (F.fin x)) s.min := by
  induction l with
  | nil => intro s; rfl
  | cons x xs ih => intro s; rw [List.foldl_cons, ih, List.foldl_cons, Stats.update_min]

lemma foldl_update_max (l : List ℚ) :
    ∀ s : Stats, (l.foldl Stats.update s).max =
      l.foldl (fun m x => m.max (F.fin x)) s.max := by
  induction l with
  | nil => intro s; rfl
  | cons x xs ih => intro s; rw [List.foldl_cons, ih, List.foldl_cons, Stats.update_max]

lemma foldl_update_mean (l : List ℚ) :
    ∀ s : Stats, (l.foldl Stats.update s).mean = l.foldl Mean.update s.mean := by
  induction l with
  | nil => intro s; rfl
  | cons x xs ih => intro s; rw [List.foldl_cons, ih, List.foldl_cons, Stats.update_mean]

lemma foldl_update_variance (l : List ℚ) :
    ∀ s : Stats, (l.foldl Stats.update s).variance =
      l.foldl Variance.update s.variance := by
  induction l with
  | nil => intro s; rfl
  | cons x xs ih => intro s; rw [List.foldl_cons, ih, List.foldl_cons, Stats.update_variance]

lemma runStats_count (l : List ℚ) : (runStats l).count = l.length := by
  have h := foldl_update_count l Stats.default
  simpa [runStats, Stats.default] using h

/-! ### The ingestion loop -/

lemma parseLoop_first_error (parse : String → Option ℚ) :
    ∀ (L : List String) (s : Stats) (i : ℕ), (∃ l ∈ L, parse l = none) →
      ∃ j raw, parseLoop parse s i L = .error (errMsg (i + j) raw) ∧
        L[j]? = some raw ∧ parse raw = none ∧
        ∀ k < j, ∀ l', L[k]? = some l' → (parse l').isSome := by
  intro L
  induction L with
  | nil => intro s i h; simp at h
  | cons line rest ih =>
    intro s i h
    cases hp : parse line with
    | none =>
      refine ⟨0, line, ?_, by simp, hp, ?_⟩
      · simp [parseLoop, hp]
      · intro k hk
        omega
    | some v =>
      have h' : ∃ l ∈ rest, parse l = none := by
        obtain ⟨l, hl, hln⟩ := h
        rcases List.mem_cons.mp hl with rfl | hmem
        · rw [hp] at hln; cases hln
        · exact ⟨l, hmem, hln⟩
      obtain ⟨j, raw, he, hg, hn, hfirst⟩ := ih (s.update v) (i + 1) h'
      refine ⟨j + 1, raw, ?_, by simpa using hg, hn, ?_⟩
      · have hi : i + (j + 1) = i + 1 + j := by omega
        rw [hi]
        simpa [parseLoop, hp] using he
      · intro k hk l' hl'
        cases k with
        | zero =>
          simp only [List.getElem?_cons_zero, Option.some_inj] at hl'
          subst hl'
          simp [hp]
        | succ k' =>
          exact hfirst k' (by omega) l' (by simpa using hl')

/-! ### NaN behaviour of the min/max fragment -/

lemma F.min_nan_right (a : F) : a.min F.nan = a := by cases a <;> rfl

lemma F.max_nan_right (a : F) : a.max F.nan = a := by cases a <;> rfl

lemma foldl_extrema_min (l : List F) :
    ∀ e : Extrema, (l.foldl Extrema.update e).min = l.foldl F.min e.min := by
  induction l with
  | nil => intro e; rfl
  | cons v vs ih => intro e; rw [List.foldl_cons, ih, List.foldl_cons]; rfl

lemma foldl_extrema_max (l : List F) :
    ∀ e : Extrema, (l.foldl Extrema.update e).max = l.foldl F.max e.max := by
  induction l with
  | nil => intro e; rfl
  | cons v vs ih => intro e; rw [List.foldl_cons, ih, List.foldl_cons]; rfl

lemma foldl_extrema_count (l : List F) :
    ∀ e : Extrema, (l.foldl Extrema.update e).count = e.count + l.length := by
  induction l with
  | nil => intro e; simp
  | cons v vs ih =>
    intro e
    rw [List.foldl_cons, ih, List.length_cons]
    show e.count + 1 + vs.length = _
    omega

lemma foldl_extrema_init (l : List F) :
    ∀ e : Extrema, (l.foldl Extrema.update e).initialized =
      (e.initialized || !l.isEmpty) := by
  induction l with
  | nil => intro e; simp
  | cons v vs ih =>
    intro e
    rw [List.foldl_cons, ih]
    show (true || !vs.isEmpty) = (e.initialized || true)
    simp

lemma foldl_fmin_filter (l : List F) :
    ∀ m : F, l.foldl F.min m = (l.filter (fun v => !v.isNan)).foldl F.min m := by
  induction l with
  | nil => intro m; rfl
  | cons v vs ih =>
    intro m
    cases v with
    | nan => simpa [List.filter_cons, F.isNan, F.min_nan_right] using ih m
    | inf => simpa [List.filter_cons, F.isNan] using ih (m.min F.inf)
    | ninf => simpa [List.filter_cons, F.isNan] using ih (m.min F.ninf)
    | fin q => simpa [List.filter_cons, F.isNan] using ih (m.min (F.fin q))

lemma foldl_fmax_filter (l : List F) :
    ∀ m : F, l.foldl F.max m = (l.filter (fun v => !v.isNan)).foldl F.max m := by
  induction l with
  | nil => intro m; rfl
  | cons v vs ih =>
    intro m
    cases v with
    | nan => simpa [List.filter_cons, F.isNan, F.max_nan_right] using ih m
    | inf => simpa [List.filter_cons, F.isNan] using ih (m.max F.inf)
    | ninf => simpa [List.filter_cons, F.isNan] using ih (m.max F.ninf)
    | fin q => simpa [List.filter_cons, F.isNan] using ih (m.max (F.fin q))

/-! ### Closed forms for the Welford estimators -/

lemma Mean.foldl_count (l : List ℚ) :
    ∀ v : Mean, (l.foldl Mean.update v).count = v.count + l.length := by
  induction l with
  | nil => intro v; simp
  | cons x xs ih =>
    intro v
    rw [List.foldl_cons, ih, List.length_cons]
    show v.count + 1 + xs.length = v.count + (xs.length + 1)
    omega

lemma Mean.foldl_mean (l : List ℚ) :
    ∀ (n : ℕ) (m : ℚ), 0 < n + l.length →
      (l.foldl Mean.update ⟨n, m⟩).mean =
        ((n : ℚ) * m + l.sum) / ((n : ℚ) + (l.length : ℚ)) := by
  induction l with
  | nil =>
    intro n m h
    have h' : n ≠ 0 := by simpa using h.ne'
    have hn : ((n : ℚ)) ≠ 0 := Nat.cast_ne_zero.mpr h'
    simp [mul_div_assoc, mul_div_cancel_left₀ _ hn]
  | cons x xs ih =>
    intro n m h
    rw [List.foldl_cons]
    have step : Mean.update ⟨n, m⟩ x =
        ⟨n + 1, m + (x - m) / (((n + 1 : ℕ) : ℚ))⟩ := rfl
    rw [step, ih (n + 1) _ (by omega)]
    have h1 : ((n : ℚ) + 1) ≠ 0 := by positivity
    have h2 : ((n : ℚ) + ((xs.length : ℚ) + 1)) ≠ 0 := by positivity
    have h3 : ((n : ℚ) + 1 + (xs.length : ℚ)) ≠ 0 := by positivity
    push_cast
    field_simp
    ring

/-- The Welford state reached from `n` observations with sum `T` and sum of
squares `Q`: the invariant tying `Variance` to the two-pass quantities. -/
def VarRep (v : Variance) (n : ℕ) (T Q : ℚ) : Prop :=
  v.count = n ∧ v.mean = T / (n : ℚ) ∧
    v.sum_sq_dev = Q - T ^ 2 / (n : ℚ) ∧ (n = 0 → T = 0 ∧ Q = 0)

lemma VarRep.update {v : Variance} {n : ℕ} {T Q : ℚ} (h : VarRep v n T Q)
    (x : ℚ) : VarRep (v.update x) (n + 1) (T + x) (Q + x ^ 2) := by
  obtain ⟨hc, hm, hs, h0⟩ := h
  have hstep : v.update x =
      ⟨v.count + 1, v.mean + (x - v.mean) / (((v.count + 1 : ℕ) : ℚ)),
        v.sum_sq_dev +
          (x - v.mean) * (x - (v.mean + (x - v.mean) / (((v.count + 1 : ℕ) : ℚ))))⟩ :=
    rfl
  by_cases hn : n = 0
  · subst hn
    obtain ⟨hT, hQ⟩ := h0 rfl
    subst hT; subst hQ
    rw [hstep, hc]
    simp only [Nat.cast_zero, div_zero, zero_div] at hm hs
    simp only [hm, hs] at *
    refine ⟨rfl, ?_, ?_, by simp⟩
    · push_cast
      ring_nf
    · push_cast
      ring_nf
  · have hq : ((n : ℚ)) ≠ 0 := Nat.cast_ne_zero.mpr hn
    have hq1 : ((n : ℚ) + 1) ≠ 0 := by positivity
    rw [hstep, hc, hm, hs]
    refine ⟨rfl, ?_, ?_, by omega⟩
    · push_cast
      field_simp
      ring
    · push_cast
      field_simp
      ring

lemma VarRep.foldl {v : Variance} {n : ℕ} {T Q : ℚ} (h : VarRep v n T Q)
    (l : List ℚ) :
    VarRep (l.foldl Variance.update v) (n + l.length) (T + l.sum)
      (Q + (l.map (fun x => x ^ 2)).sum) := by
  induction l generalizing v n T Q with
  | nil => simpa using h
  | cons x xs ih =>
    rw [List.foldl_cons]
    have h2 := ih (h.update x)
    have e1 : n + 1 + xs.length = n + (x :: xs).length := by
      rw [List.length_cons]; omega
    have e2 : T + x + xs.sum = T + (x :: xs).sum := by
      rw [List.sum_cons]; ring
    have e3 : Q + x ^ 2 + (xs.map (fun y => y ^ 2)).sum =
        Q + ((x :: xs).map (fun y => y ^ 2)).sum := by
      rw [List.map_cons, List.sum_cons]; ring
    rw [e1, e2, e3] at h2
    exact h2

lemma varRep_default : VarRep Variance.default 0 0 0 := by
  refine ⟨rfl, ?_, ?_, fun _ => ⟨rfl, rfl⟩⟩ <;> simp [Variance.default]

lemma runStats_mean_get (l : List ℚ) :
    (runStats l).mean.get =
      if l = [] then none else some (l.sum / (l.length : ℚ)) := by
  cases l with
  | nil => rfl
  | cons y ys =>
    have hm : (runStats (y :: ys)).mean =
        List.foldl Mean.update ⟨0, 0⟩ (y :: ys) :=
      foldl_update_mean (y :: ys) Stats.default
    have hc := Mean.foldl_count (y :: ys) (⟨0, 0⟩ : Mean)
    have hv := Mean.foldl_mean (y :: ys) 0 0 (by simp)
    rw [Mean.get, hm, hc, hv]
    simp

lemma runStats_variance_get (l : List ℚ) :
    (runStats l).variance.get =
      if l = [] then none else
        some (((l.map (fun x => x ^ 2)).sum - l.sum ^ 2 / (l.length : ℚ)) /
          (l.length : ℚ)) := by
  have hproj := foldl_update_variance l Stats.default
  have hrep := varRep_default.foldl l
  obtain ⟨hc, -, hs, -⟩ := hrep
  have hv : (runStats l).variance = l.foldl Variance.update Variance.default := hproj
  rw [Variance.get, hv]
  rcases eq_or_ne l [] with rfl | hne
  · simp [Variance.default]
  · have hlen : l.length ≠ 0 := by
      simpa [List.length_eq_zero] using hne
    rw [if_neg hne]
    rw [hc, hs]
    simp only [Nat.zero_add, zero_add]
    rw [if_neg hlen]

/-- The two-pass population variance of a list: the mean of squared
deviations from the list mean (the quantity the spec calls population
variance, `sum_sq_dev / count`). -/
def popVar (l : List ℚ) : ℚ :=
  (l.map (fun x => (x - l.sum / (l.length : ℚ)) ^ 2)).sum / (l.length : ℚ)

lemma sum_sq_sub (l : List ℚ) (c : ℚ) :
    (l.map (fun x => (x - c) ^ 2)).sum =
      (l.map (fun x => x ^ 2)).sum - 2 * c * l.sum + (l.length : ℚ) * c ^ 2 := by
  induction l with
  | nil => simp
  | cons x xs ih =>
    simp only [List.map_cons, List.sum_cons, List.length_cons, ih]
    push_cast
    ring

lemma popVar_eq (l : List ℚ) (h : l ≠ []) :
    popVar l =
      ((l.map (fun x => x ^ 2)).sum - l.sum ^ 2 / (l.length : ℚ)) /
        (l.length : ℚ) := by
  have hl : ((l.length : ℚ)) ≠ 0 := by
    have : l.length ≠ 0 := by simpa [List.length_eq_zero] using h
    exact Nat.cast_ne_zero.mpr this
  rw [popVar, sum_sq_sub]
  field_simp
  ring

/-! ### Permutation invariance helpers -/

lemma F.min_fin_right_comm (z : F) (x y : ℚ) :
    (z.min (F.fin x)).min (F.fin y) = (z.min (F.fin y)).min (F.fin x) := by
  cases z with
  | nan => show F.fin (Min.min x y) = F.fin (Min.min y x); rw [min_comm]
  | inf => show F.fin (Min.min x y) = F.fin (Min.min y x); rw [min_comm]
  | ninf => rfl
  | fin a =>
    show F.fin (Min.min (Min.min a x) y) = F.fin (Min.min (Min.min a y) x)
    rw [min_right_comm]

lemma F.max_fin_right_comm (z : F) (x y : ℚ) :
    (z.max (F.fin x)).max (F.fin y) = (z.max (F.fin y)).max (F.fin x) := by
  cases z with
  | nan => show F.fin (Max.max x y) = F.fin (Max.max y x); rw [max_comm]
  | inf => rfl
  | ninf => show F.fin (Max.max x y) = F.fin (Max.max y x); rw [max_comm]
  | fin a =>
    show F.fin (Max.max (Max.max a x) y) = F.fin (Max.max (Max.max a y) x)
    rw [max_assoc, max_comm x y, ← max_assoc]

/-! ### Exact extrema helpers -/

lemma foldl_fmin_fin (xs : List ℚ) :
    ∀ a : ℚ, xs.foldl (fun m x => m.min (F.fin x)) (F.fin a) =
      F.fin (xs.foldl Min.min a) := by
  induction xs with
  | nil => intro a; rfl
  | cons x xs ih => intro a; rw [List.foldl_cons, List.foldl_cons]; exact ih _

lemma foldl_fmax_fin (xs : List ℚ) :
    ∀ a : ℚ, xs.foldl (fun m x => m.max (F.fin x)) (F.fin a) =
      F.fin (xs.foldl Max.max a) := by
  induction xs with
  | nil => intro a; rfl
  | cons x xs ih => intro a; rw [List.foldl_cons, List.foldl_cons]; exact ih _

lemma runStats_min_cons (x : ℚ) (xs : List ℚ) :
    (runStats (x :: xs)).min = F.fin (xs.foldl Min.min x) := by
  rw [runStats, foldl_update_min, List.foldl_cons]
  exact foldl_fmin_fin xs x

lemma runStats_max_cons (x : ℚ) (xs : List ℚ) :
    (runStats (x :: xs)).max = F.fin (xs.foldl Max.max x) := by
  rw [runStats, foldl_update_max, List.foldl_cons]
  exact foldl_fmax_fin xs x

lemma foldl_min_mem (xs : List ℚ) :
    ∀ a : ℚ, xs.foldl Min.min a = a ∨ xs.foldl Min.min a ∈ xs := by
  induction xs with
  | nil => intro a; exact Or.inl rfl
  | cons x xs ih =>
    intro a
    rw [List.foldl_cons]
    rcases ih (Min.min a x) with h | h
    · rcases min_choice a x with hm | hm
      · exact Or.inl (h.trans hm)
      · exact Or.inr (by rw [h, hm]; exact List.mem_cons_self x xs)
    · exact Or.inr (List.mem_cons_of_mem x h)

lemma foldl_min_le_init (xs : List ℚ) : ∀ a : ℚ, xs.foldl Min.min a ≤ a := by
  induction xs with
  | nil => intro a; exact le_refl a
  | cons x xs ih =>
    intro a
    rw [List.foldl_cons]
    exact (ih (Min.min a x)).trans (min_le_left a x)

lemma foldl_min_le (xs : List ℚ) :
    ∀ a : ℚ, ∀ x ∈ xs, xs.foldl Min.min a ≤ x := by
  induction xs with
  | nil => intro a x hx; cases hx
  | cons y ys ih =>
    intro a x hx
    rw [List.foldl_cons]
    rcases List.mem_cons.mp hx with rfl | hmem
    · exact (foldl_min_le_init ys (Min.min a x)).trans (min_le_right a x)
    · exact ih (Min.min a y) x hmem

lemma foldl_max_mem (xs : List ℚ) :
    ∀ a : ℚ, xs.foldl Max.max a = a ∨ xs.foldl Max.max a ∈ xs := by
  induction xs with
  | nil => intro a; exact Or.inl rfl
  | cons x xs ih =>
    intro a
    rw [List.foldl_cons]
    rcases ih (Max.max a x) with h | h
    · rcases max_choice a x with hm | hm
      · exact Or.inl (h.trans hm)
      · exact Or.inr (by rw [h, hm]; exact List.mem_cons_self x xs)
    · exact Or.inr (List.mem_cons_of_mem x h)

lemma foldl_max_ge_init (xs : List ℚ) : ∀ a : ℚ, a ≤ xs.foldl Max.max a := by
  induction xs with
  | nil => intro a; exact le_refl a
  | cons x xs ih =>
    intro a
    rw [List.foldl_cons]
    exact (le_max_left a x).trans (ih (Max.max a x))

lemma foldl_max_ge (xs : List ℚ) :
    ∀ a : ℚ, ∀ x ∈ xs, x ≤ xs.foldl Max.max a := by
  induction xs with
  | nil => intro a x hx; cases hx
  | cons y ys ih =>
    intro a x hx
    rw [List.foldl_cons]
    rcases List.mem_cons.mp hx with rfl | hmem
    · exact (le_max_right a x).trans (foldl_max_ge_init ys (Max.max a x))
    · exact ih (Max.max a y) x hmem

/-! ### Claims -/

/-- C1 (counterexample): in the UNINITIALIZED state the rendered snapshot
does leak the sentinel infinities — the text written by the `Display`
implementation before any `update` contains `"inf"` (indeed `Min:\tinf` and
`Max:\t-inf`), so the claim that the rendered min and max do not leak the
sentinels is false on the code. -/
theorem C1_counterexample_sentinel_leak :
    Stats.default.initialized = false ∧ leaksInf Stats.default.display = true :=
  ⟨rfl, rfl⟩

/-- C1 (amended): in the UNINITIALIZED state (before any update call), the
human-readable snapshot renders mean, variance, median, q1 and q3 as the
explicit `NA` marker, renders the count as 0, and renders min and max
directly from the sentinel infinities, as `inf` and `-inf` — the sentinels
are leaked to the user, not masked. -/
theorem C1_uninitialized_render :
    Stats.default.display =
      "Mean:\tNA\nVariance:\tNA\nMedian:\tNA\nq1:\tNA\nq3:\tNA\nCount:\t0\nMin:\tinf\nMax:\t-inf\n" :=
  rfl

/-- C2: for every input stream whose processed lines (the lines after the
optional header skip) contain at least one unparseable line, the run aborts
at the first such line: the result is the `bail!` error carrying the 0-based
line index `j` and the raw text of that line, no final statistics are
produced on the primary output channel, and every line before index `j`
parsed successfully. -/
theorem C2_parse_error_aborts (parse : String → Option ℚ) (skip_header : Bool)
    (input : List String)
    (h : ∃ l ∈ (if skip_header then input.drop 1 else input), parse l = none) :
    ∃ j raw,
      compute_stats parse skip_header input = .error (errMsg j raw) ∧
      (if skip_header then input.drop 1 else input)[j]? = some raw ∧
      parse raw = none ∧
      ∀ k < j, ∀ l',
        (if skip_header then input.drop 1 else input)[k]? = some l' →
          (parse l').isSome := by
  obtain ⟨j, raw, he, hg, hn, hf⟩ :=
    parseLoop_first_error parse (if skip_header then input.drop 1 else input)
      Stats.default 0 h
  exact ⟨j, raw, by simpa [compute_stats] using he, hg, hn, hf⟩

/-- Witness for C2: the concrete two-line input `1`, `x` with the parser that
only accepts `"1"`: the hypothesis holds and the run aborts on line 1. -/
theorem C2_parse_error_aborts_witness :
    (∃ l ∈ (if false then (["1", "x"] : List String).drop 1 else ["1", "x"]),
      (fun t => if t = "1" then some (1 : ℚ) else none) l = none) ∧
    (∃ j raw,
      compute_stats (fun t => if t = "1" then some (1 : ℚ) else none) false
          ["1", "x"] = .error (errMsg j raw) ∧
      (if false then (["1", "x"] : List String).drop 1 else ["1", "x"])[j]? =
        some raw ∧
      (fun t => if t = "1" then some (1 : ℚ) else none) raw = none ∧
      ∀ k < j, ∀ l',
        (if false then (["1", "x"] : List String).drop 1 else
          ["1", "x"])[k]? = some l' →
          ((fun t => if t = "1" then some (1 : ℚ) else none) l').isSome) := by
  have hw : ∃ l ∈ (if false then (["1", "x"] : List String).drop 1 else ["1", "x"]),
      (fun t => if t = "1" then some (1 : ℚ) else none) l = none :=
    ⟨"x", by simp, by simp⟩
  exact ⟨hw, C2_parse_error_aborts _ false _ hw⟩

/-- C3: feeding exactly the observations 1, 2, 3, 4, 5 in order yields the
final snapshot count = 5, min = 1, max = 5, mean = 3, median = 3, q1 = 2,
q3 = 4 — the quartile and median estimates are exactly the sorted input
values, per the five-observation bootstrap assignment. -/
theorem C3_five_observation_bootstrap :
    (runStats [1, 2, 3, 4, 5]).count = 5 ∧
    (runStats [1, 2, 3, 4, 5]).min = F.fin 1 ∧
    (runStats [1, 2, 3, 4, 5]).max = F.fin 5 ∧
    (runStats [1, 2, 3, 4, 5]).mean.get = some 3 ∧
    (runStats [1, 2, 3, 4, 5]).median.get = some 3 ∧
    (runStats [1, 2, 3, 4, 5]).q1.get = some 2 ∧
    (runStats [1, 2, 3, 4, 5]).q3.get = some 4 := by
  refine ⟨?_, ?_, ?_, ?_, ?_, ?_, ?_⟩ <;> with_unfolding_all rfl

/-- C4: `variance()` returns `sum_sq_dev / count` and this is the population
variance — for every nonempty sequence of observations it equals the mean of
the squared deviations from the mean (`popVar`, divisor `count`, not the
sample divisor `count - 1`) — and it is the absent value when count = 0. -/
theorem C4_population_variance (l : List ℚ) :
    (runStats l).variance.get = if l = [] then none else some (popVar l) := by
  rw [runStats_variance_get]
  rcases eq_or_ne l [] with rfl | hne
  · rfl
  · rw [if_neg hne, if_neg hne, popVar_eq l hne]

/-- C5: feeding the same multiset of values in two different orders yields
identical final count, min, max, mean and variance. Over the exact rational
model the mean and variance agree exactly (hence within any floating-point
tolerance); the quantile estimates are not claimed equal. -/
theorem C5_order_invariance (l₁ l₂ : List ℚ) (h : l₁.Perm l₂) :
    (runStats l₁).count = (runStats l₂).count ∧
    (runStats l₁).min = (runStats l₂).min ∧
    (runStats l₁).max = (runStats l₂).max ∧
    (runStats l₁).mean.get = (runStats l₂).mean.get ∧
    (runStats l₁).variance.get = (runStats l₂).variance.get := by
  have hlen := h.length_eq
  have hsum := h.sum_eq
  have hsq := (h.map (fun x => x ^ 2)).sum_eq
  have hiff : l₁ = [] ↔ l₂ = [] := by
    rw [← List.length_eq_zero, ← List.length_eq_zero, hlen]
  refine ⟨?_, ?_, ?_, ?_, ?_⟩
  · rw [runStats_count, runStats_count, hlen]
  · rw [runStats, runStats, foldl_update_min, foldl_update_min]
    exact h.foldl_eq' (fun x _ y _ z => F.min_fin_right_comm z x y) _
  · rw [runStats, runStats, foldl_update_max, foldl_update_max]
    exact h.foldl_eq' (fun x _ y _ z => F.max_fin_right_comm z x y) _
  · rw [runStats_mean_get, runStats_mean_get, hsum, hlen]
    exact if_congr hiff rfl rfl
  · rw [runStats_variance_get, runStats_variance_get, hsum, hlen, hsq]
    exact if_congr hiff rfl rfl

/-- Witness for C5: the two orders `[1, 2]` and `[2, 1]` of the same
two-element multiset. -/
theorem C5_order_invariance_witness :
    ([1, 2] : List ℚ).Perm [2, 1] ∧
      ((runStats [1, 2]).count = (runStats [2, 1]).count ∧
       (runStats [1, 2]).min = (runStats [2, 1]).min ∧
       (runStats [1, 2]).max = (runStats [2, 1]).max ∧
       (runStats [1, 2]).mean.get = (runStats [2, 1]).mean.get ∧
       (runStats [1, 2]).variance.get = (runStats [2, 1]).variance.get) := by
  have hp : ([1, 2] : List ℚ).Perm [2, 1] := List.Perm.swap 2 1 []
  exact ⟨hp, C5_order_invariance [1, 2] [2, 1] hp⟩

/-- C6: after any nonempty sequence of (finite) updates, the min and max
fields hold exactly the true minimum and maximum of the observed sequence:
finite values that belong to the sequence and bound every element. -/
theorem C6_exact_extrema (l : List ℚ) (h : l ≠ []) :
    ∃ a b, (runStats l).min = F.fin a ∧ (runStats l).max = F.fin b ∧
      a ∈ l ∧ b ∈ l ∧ (∀ x ∈ l, a ≤ x) ∧ (∀ x ∈ l, x ≤ b) := by
  cases l with
  | nil => exact absurd rfl h
  | cons y ys =>
    refine ⟨ys.foldl Min.min y, ys.foldl Max.max y,
      runStats_min_cons y ys, runStats_max_cons y ys, ?_, ?_, ?_, ?_⟩
    · rcases foldl_min_mem ys y with hm | hm
      · rw [hm]; exact List.mem_cons_self y ys
      · exact List.mem_cons_of_mem y hm
    · rcases foldl_max_mem ys y with hm | hm
      · rw [hm]; exact List.mem_cons_self y ys
      · exact List.mem_cons_of_mem y hm
    · intro x hx
      rcases List.mem_cons.mp hx with rfl | hmem
      · exact foldl_min_le_init ys x
      · exact foldl_min_le ys y x hmem
    · intro x hx
      rcases List.mem_cons.mp hx with rfl | hmem
      · exact foldl_max_ge_init ys x
      · exact foldl_max_ge ys y x hmem

/-- Witness for C6: the concrete sequence `[3, 1, 2]`. -/
theorem C6_exact_extrema_witness :
    ([3, 1, 2] : List ℚ) ≠ [] ∧
      (∃ a b, (runStats [3, 1, 2]).min = F.fin a ∧
        (runStats [3, 1, 2]).max = F.fin b ∧
        a ∈ ([3, 1, 2] : List ℚ) ∧ b ∈ ([3, 1, 2] : List ℚ) ∧
        (∀ x ∈ ([3, 1, 2] : List ℚ), a ≤ x) ∧
        (∀ x ∈ ([3, 1, 2] : List ℚ), x ≤ b)) :=
  ⟨by simp, C6_exact_extrema [3, 1, 2] (by simp)⟩

/-- C7: for every finite sequence of N observations, the count after the N
update calls equals N. -/
theorem C7_count_equals_length (l : List ℚ) : (runStats l).count = l.length :=
  runStats_count l

/-- C9: with header-skip enabled, running on an input whose first line is a
header followed by the data lines produces exactly the same final result as
running without header-skip on the data lines alone. -/
theorem C9_header_skip_equivalence (parse : String → Option ℚ) (header : String)
    (data : List String) :
    compute_stats parse true (header :: data) = compute_stats parse false data :=
  rfl

/-- The marker invariant of the P² estimator (spec §3): positions are
non-decreasing starting at 1, and heights are non-decreasing. -/
def P2.Inv (s : P2) : Prop :=
  1 ≤ s.n1 ∧ s.n1 ≤ s.n2 ∧ s.n2 ≤ s.n3 ∧ s.n3 ≤ s.n4 ∧ s.n4 ≤ s.n5 ∧
    s.h1 ≤ s.h2 ∧ s.h2 ≤ s.h3 ∧ s.h3 ≤ s.h4 ∧ s.h4 ≤ s.h5

lemma adjust_bounds {nl n nr hl h hr d : ℚ} (hnl : nl ≤ n) (hnr : n ≤ nr)
    (hhl : hl ≤ h) (hhr : h ≤ hr) :
    nl ≤ (adjust nl n nr hl h hr d).1 ∧ (adjust nl n nr hl h hr d).1 ≤ nr ∧
      hl ≤ (adjust nl n nr hl h hr d).2 ∧ (adjust nl n nr hl h hr d).2 ≤ hr := by
  rw [adjust]
  split_ifs with c1 c2
  · dsimp only
    by_cases hb : hl < parabolic nl n nr hl h hr 1 ∧ parabolic nl n nr hl h hr 1 < hr
    · rw [if_pos hb]
      exact ⟨by linarith, by linarith [c1.2], le_of_lt hb.1, le_of_lt hb.2⟩
    · rw [if_neg hb]
      simp only [linearAdj, one_mul]
      have hpos : (0 : ℚ) < nr - n := by linarith [c1.2]
      have hnn : (0 : ℚ) ≤ hr - h := by linarith
      have hdiv : (0 : ℚ) ≤ (hr - h) / (nr - n) := div_nonneg hnn (le_of_lt hpos)
      have hle : (hr - h) / (nr - n) ≤ hr - h :=
        div_le_self hnn (by linarith [c1.2])
      exact ⟨by linarith, by linarith [c1.2], by linarith, by linarith⟩
  · dsimp only
    by_cases hb : hl < parabolic nl n nr hl h hr (-1) ∧
        parabolic nl n nr hl h hr (-1) < hr
    · rw [if_pos hb]
      exact ⟨by linarith [c2.2], by linarith, le_of_lt hb.1, le_of_lt hb.2⟩
    · rw [if_neg hb]
      simp only [linearAdj]
      have h1 : nl - n ≠ 0 := by
        have := c2.2
        intro hz
        rw [hz] at this
        linarith
      have h2 : n - nl ≠ 0 := by
        intro hz
        exact h1 (by linarith)
      have e : (hl - h) / (nl - n) = (h - hl) / (n - nl) := by
        field_simp
        ring
      have e2 : -1 * (hl - h) / (nl - n) = -((h - hl) / (n - nl)) := by
        rw [neg_one_mul, neg_div, e]
      rw [e2]
      have hnn : (0 : ℚ) ≤ h - hl := by linarith
      have h1b : (1 : ℚ) ≤ n - nl := by linarith [c2.2]
      have hdiv : (0 : ℚ) ≤ (h - hl) / (n - nl) := div_nonneg hnn (by linarith)
      have hle : (h - hl) / (n - nl) ≤ h - hl := div_le_self hnn h1b
      exact ⟨by linarith [c2.2], by linarith, by linarith, by linarith⟩
  · exact ⟨hnl, hnr, hhl, hhr⟩

lemma P2.stage12_inv {s : P2} (x : ℚ) (h : s.Inv) : (s.stage12 x).Inv := by
  obtain ⟨i1, i2, i3, i4, i5, j1, j2, j3, j4⟩ := h
  rw [P2.stage12]
  split_ifs with c1 c2 c3 c4 c5 <;>
    exact ⟨by dsimp only; linarith, by dsimp only; linarith, by dsimp only; linarith,
      by dsimp only; linarith, by dsimp only; linarith, by dsimp only; linarith,
      by dsimp only; linarith, by dsimp only; linarith, by dsimp only; linarith⟩

lemma P2.adj2_inv {t : P2} (h : t.Inv) : t.adj2.Inv := by
  obtain ⟨i1, i2, i3, i4, i5, j1, j2, j3, j4⟩ := h
  obtain ⟨b1, b2, b3, b4⟩ :=
    adjust_bounds (d := 1 + ((t.count : ℚ) - 1) * t.p / 2) i2 i3 j1 j2
  exact ⟨i1, b1, b2, i4, i5, b3, b4, j3, j4⟩

lemma P2.adj3_inv {t : P2} (h : t.Inv) : t.adj3.Inv := by
  obtain ⟨i1, i2, i3, i4, i5, j1, j2, j3, j4⟩ := h
  obtain ⟨b1, b2, b3, b4⟩ :=
    adjust_bounds (d := 1 + ((t.count : ℚ) - 1) * t.p) i3 i4 j2 j3
  exact ⟨i1, i2, b1, b2, i5, j1, b3, b4, j4⟩

lemma P2.adj4_inv {t : P2} (h : t.Inv) : t.adj4.Inv := by
  obtain ⟨i1, i2, i3, i4, i5, j1, j2, j3, j4⟩ := h
  obtain ⟨b1, b2, b3, b4⟩ :=
    adjust_bounds (d := 1 + ((t.count : ℚ) - 1) * (1 + t.p) / 2) i4 i5 j3 j4
  exact ⟨i1, i2, i3, b1, b2, j1, j2, b3, b4⟩

lemma P2.step_inv {s : P2} (x : ℚ) (h : s.Inv) : (s.step x).Inv :=
  P2.adj4_inv (P2.adj3_inv (P2.adj2_inv (P2.stage12_inv x h)))

lemma P2.stage12_count (s : P2) (x : ℚ) : (s.stage12 x).count = s.count + 1 := by
  rw [P2.stage12]
  split_ifs <;> rfl

lemma P2.step_count (s : P2) (x : ℚ) : (s.step x).count = s.count + 1 := by
  have : (s.step x).count = (s.stage12 x).count := rfl
  rw [this, P2.stage12_count]

/-- C8: every steady-state P² update preserves the marker invariant — the
positions stay non-decreasing with `1 ≤ n1` and the heights stay
non-decreasing (the parabolic-vs-linear fallback guarantees this) — and the
value returned as the current quantile estimate of the updated state is
marker 3's height. -/
theorem C8_p2_marker_invariant (s : P2) (x : ℚ) (hc : 5 ≤ s.count)
    (hinv : s.Inv) :
    (s.step x).Inv ∧
      Quantile.get (.run (s.step x)) = some ((s.step x).h3) := by
  refine ⟨P2.step_inv x hinv, ?_⟩
  have hcount := P2.step_count s x
  simp only [Quantile.get]
  rw [if_neg (by omega : ¬ (s.step x).count = 5)]

/-- Witness for C8: the state bootstrapped from `[1, 2, 3, 4, 5]` for the
median (`p = 1/2`), updated with the observation 6. -/
theorem C8_p2_marker_invariant_witness :
    5 ≤ (P2.init (1 / 2) [1, 2, 3, 4, 5]).count ∧
      (P2.init (1 / 2) [1, 2, 3, 4, 5]).Inv ∧
      (((P2.init (1 / 2) [1, 2, 3, 4, 5]).step 6).Inv ∧
        Quantile.get (.run ((P2.init (1 / 2) [1, 2, 3, 4, 5]).step 6)) =
          some (((P2.init (1 / 2) [1, 2, 3, 4, 5]).step 6).h3)) := by
  have h1 : 5 ≤ (P2.init (1 / 2) [1, 2, 3, 4, 5]).count := by
    norm_num [P2.init]
  have h2 : (P2.init (1 / 2) [1, 2, 3, 4, 5]).Inv := by
    refine ⟨?_, ?_, ?_, ?_, ?_, ?_, ?_, ?_, ?_⟩ <;> norm_num [P2.init]
  exact ⟨h1, h2, C8_p2_marker_invariant _ 6 h1 h2⟩

/-- C10: a NaN observation leaves min and max unchanged (the float min/max
discard the NaN operand) while the count is still incremented and the
`initialized` flag still set; consequently, after any sequence of updates
the min/max fields equal those obtained from the non-NaN observations
alone, the count equals the number of all observations, and `initialized`
is set exactly when there was at least one observation. -/
theorem C10_nan_ignored_by_extrema :
    (∀ s : Extrema, (s.update F.nan).min = s.min ∧ (s.update F.nan).max = s.max ∧
      (s.update F.nan).count = s.count + 1 ∧ (s.update F.nan).initialized = true) ∧
    (∀ l : List F,
      (runExtrema l).min = (runExtrema (l.filter (fun v => !v.isNan))).min ∧
      (runExtrema l).max = (runExtrema (l.filter (fun v => !v.isNan))).max ∧
      (runExtrema l).count = l.length ∧
      (runExtrema l).initialized = !l.isEmpty) := by
  constructor
  · intro s
    exact ⟨F.min_nan_right s.min, F.max_nan_right s.max, rfl, rfl⟩
  · intro l
    refine ⟨?_, ?_, ?_, ?_⟩
    · rw [runExtrema, runExtrema, foldl_extrema_min, foldl_extrema_min]
      exact foldl_fmin_filter l _
    · rw [runExtrema, runExtrema, foldl_extrema_max, foldl_extrema_max]
      exact foldl_fmax_filter l _
    · rw [runExtrema, foldl_extrema_count]
      simp [Extrema.default]
    · rw [runExtrema, foldl_extrema_init]
      simp [Extrema.default]

end StatsRs
